import Mathlib

/-!
Verification of the streaming chat session engine of the VeriSearch client.

The development shallowly embeds the four core components:

* the Transport Decoder and Streaming Client (`src/lib/api.ts`,
  `sendChatMessage`): line-oriented buffering of stream fragments,
  payload parsing, and callback dispatch with its two nested
  exception handlers;
* the Conversation Store (`src/stores/chatStore.ts`): `createChat`,
  `addMessage`, `updateMessage` over a persisted list of chats;
* the Session Orchestrator (`ChatInterface.handleSend`): one user turn,
  from the user-message append to the terminal settle of the assistant
  placeholder, composed with the embedded client;
* the guarded send input (`ChatInput.handleSend`), modelled as the
  precondition of the `submit` transition of a small labelled
  transition system used for the single-in-flight invariant.

Strings are embedded as `List Char` so that every operation of the
source (split on newline, trim, slice, concatenation) is a structurally
recursive function amenable to induction, and every theorem can be
evaluated on concrete inputs by `decide`.
-/

namespace VeriSearch

/-- Strings of the embedded program, as lists of characters. -/
abbrev Str := List Char

/-- Whitespace test used by the embedded `trim`; covers the whitespace
characters that occur in the protocol (space, tab, newline, carriage
return).  JavaScript `String.prototype.trim` strips a larger set of
Unicode whitespace, none of which occurs in the modelled traffic. -/
def isWs (c : Char) : Bool :=
  c = ' ' || c = '\t' || c = '\n' || c = '\r'

/-- Drop leading whitespace. -/
def trimLeft : Str → Str
  | [] => []
  | c :: cs => if isWs c then trimLeft cs else c :: cs

/-- Embedded `String.prototype.trim`: drop leading and trailing
whitespace. -/
def trim (s : Str) : Str :=
  (trimLeft (trimLeft s).reverse).reverse

/-- Embedded `String.prototype.startsWith`. -/
def leadsWith : Str → Str → Bool
  | [], _ => true
  | _ :: _, [] => false
  | p :: ps, c :: cs => p = c && leadsWith ps cs

/-- Embedded `buffer.split('\n')` followed by `buffer = lines.pop()`:
returns the complete (newline-terminated) lines in order, and the
trailing partial line (the new carry-over buffer). -/
def splitNl : Str → List Str × Str
  | [] => ([], [])
  | c :: cs =>
    let p := splitNl cs
    if c = '\n' then ([] :: p.1, p.2)
    else
      match p.1 with
      | [] => ([], c :: p.2)
      | l :: ls => ((c :: l) :: ls, p.2)

/-- How the line-splits of two adjacent texts compose: the carry-over of
the first text is prepended to the first line (or the carry-over) of the
second. -/
def mergeSplit (a b : List Str × Str) : List Str × Str :=
  match b.1 with
  | [] => (a.1, a.2 ++ b.2)
  | l :: ls => (a.1 ++ (a.2 ++ l) :: ls, b.2)

theorem splitNl_append (xs ys : Str) :
    splitNl (xs ++ ys) = mergeSplit (splitNl xs) (splitNl ys) := by
  induction xs with
  | nil =>
    simp only [List.nil_append, splitNl, mergeSplit]
    rcases h : (splitNl ys) with ⟨ls, p⟩
    cases ls <;> simp
  | cons c cs ih =>
    rcases hx : (splitNl cs) with ⟨lsx, px⟩
    rcases hy : (splitNl ys) with ⟨lsy, py⟩
    rw [hx, hy] at ih
    simp only [List.cons_append, splitNl, ih, hx, hy]
    by_cases hc : c = '\n'
    · cases lsy <;> cases lsx <;> simp_all [mergeSplit, hc]
    · cases lsy <;> cases lsx <;> simp_all [mergeSplit, hc]

theorem splitNl_no_newline {s : Str} (h : ∀ c ∈ s, c ≠ '\n') :
    splitNl s = ([], s) := by
  induction s with
  | nil => rfl
  | cons c cs ih =>
    have hc : c ≠ '\n' := h c (List.mem_cons_self c cs)
    have ih' := ih (fun x hx => h x (List.mem_cons_of_mem c hx))
    simp [splitNl, ih', hc]

theorem splitNl_carry_no_newline (s : Str) :
    ∀ c ∈ (splitNl s).2, c ≠ '\n' := by
  induction s with
  | nil => intro c hc; simp [splitNl] at hc
  | cons a as ih =>
    intro c hc
    by_cases ha : a = '\n'
    · simp [splitNl, ha] at hc
      exact ih c hc
    · rcases h : (splitNl as) with ⟨ls, p⟩
      cases ls with
      | nil =>
        simp [splitNl, ha, h] at hc
        rcases hc with hc | hc
        · simpa [hc] using ha
        · exact ih c (by simp [h, hc])
      | cons l ls' =>
        simp [splitNl, ha, h] at hc
        exact ih c (by simp [h, hc])

theorem splitNl_of_carry (s : Str) :
    splitNl (splitNl s).2 = ([], (splitNl s).2) :=
  splitNl_no_newline (splitNl_carry_no_newline s)

/-- Concatenation of a list of strings (the whole stream text, a folded
accumulator, ...). -/
def concatAll : List Str → Str
  | [] => []
  | s :: ss => s ++ concatAll ss

theorem concatAll_append (xs ys : List Str) :
    concatAll (xs ++ ys) = concatAll xs ++ concatAll ys := by
  induction xs with
  | nil => simp [concatAll]
  | cons s ss ih => simp [concatAll, ih]

/-! ## Payload parsing

`sendChatMessage` calls `JSON.parse` on the text after the `data: `
marker and dispatches on `parsed.type`.  The payloads of the modelled
wire protocol are flat JSON objects with string-valued fields
(`{"type":"content","data":...}` etc.), so the embedded parser accepts
exactly such objects: a brace-delimited, comma-separated list of
`"key":"value"` pairs with optional whitespace, where keys and values
are JSON strings with the single-character escapes.  Everything else is
rejected, which the caller treats exactly as a `JSON.parse` exception:
the line is skipped.  (Unicode `\u` escapes, non-string field values
and duplicate keys do not occur in the modelled traffic and are
likewise rejected.) -/

/-- Opening brace character of a JSON object. -/
def lbrace : Char := Char.ofNat 123

/-- Closing brace character of a JSON object. -/
def rbrace : Char := Char.ofNat 125

/-- Single-character JSON string escapes. -/
def escChar (e : Char) : Option Char :=
  if e = '"' then some '"'
  else if e = '\\' then some '\\'
  else if e = '/' then some '/'
  else if e = 'n' then some '\n'
  else if e = 't' then some '\t'
  else if e = 'r' then some '\r'
  else if e = 'b' then some (Char.ofNat 8)
  else if e = 'f' then some (Char.ofNat 12)
  else none

/-- Parse the body of a JSON string after its opening quote; returns the
decoded content and the remaining input after the closing quote. -/
def parseStr : Str → Option (Str × Str)
  | [] => none
  | '"' :: cs => some ([], cs)
  | '\\' :: e :: cs =>
    match escChar e with
    | none => none
    | some ch =>
      match parseStr cs with
      | none => none
      | some (s, r) => some (ch :: s, r)
  | '\\' :: [] => none
  | c :: cs =>
    match parseStr cs with
    | none => none
    | some (s, r) => some (c :: s, r)

/-- Drop leading whitespace of the remaining JSON input. -/
def skipWs : Str → Str
  | [] => []
  | c :: cs => if isWs c then skipWs cs else c :: cs

/-- Parse a non-empty comma-separated list of `"key":"value"` fields up
to and including the closing brace; fuelled by the input length. -/
def parseFieldsAux : Nat → Str → Option (List (Str × Str) × Str)
  | 0, _ => none
  | fuel + 1, s =>
    match skipWs s with
    | '"' :: rest =>
      match parseStr rest with
      | none => none
      | some (key, r1) =>
        match skipWs r1 with
        | ':' :: r2 =>
          match skipWs r2 with
          | '"' :: r3 =>
            match parseStr r3 with
            | none => none
            | some (val, r4) =>
              match skipWs r4 with
              | [] => none
              | c :: r5 =>
                if c = ',' then
                  match parseFieldsAux fuel r5 with
                  | none => none
                  | some (fs, r) => some ((key, val) :: fs, r)
                else if c = rbrace then some ([(key, val)], r5)
                else none
          | _ => none
        | _ => none
    | _ => none

/-- Parse a whole payload as a flat JSON object of string fields;
`none` models a `JSON.parse` exception (or a payload shape outside the
modelled protocol). -/
def parseObj (s : Str) : Option (List (Str × Str)) :=
  match skipWs s with
  | [] => none
  | c :: rest =>
    if c = lbrace then
      match skipWs rest with
      | [] => none
      | c2 :: r2 =>
        if c2 = rbrace then
          if (skipWs r2).isEmpty then some [] else none
        else
          match parseFieldsAux (rest.length + 1) rest with
          | none => none
          | some (fs, r) => if (skipWs r).isEmpty then some fs else none
    else none

/-- First field with the given key (the modelled payloads have no
duplicate keys). -/
def lookupField (fs : List (Str × Str)) (k : Str) : Option Str :=
  match fs.find? (fun p => p.1 = k) with
  | none => none
  | some p => some p.2

/-- Typed protocol events produced by the Transport Decoder. -/
inductive StreamEvent where
  | content (data : Str)
  | done
  | error (data : Str)
deriving DecidableEq, Repr

/-- Dispatchable event of a parsed payload: mirrors the
`parsed.type === 'content' | 'done' | 'error'` chain of
`sendChatMessage`.  A payload whose `type` is none of the three, or a
`content`/`error` payload without a string `data` field, dispatches no
callback and is therefore `none` here. -/
def jsonEvent (payload : Str) : Option StreamEvent :=
  match parseObj payload with
  | none => none
  | some fs =>
    match lookupField fs ('t' :: 'y' :: 'p' :: 'e' :: []) with
    | none => none
    | some t =>
      if t = ('c' :: 'o' :: 'n' :: 't' :: 'e' :: 'n' :: 't' :: []) then
        match lookupField fs ('d' :: 'a' :: 't' :: 'a' :: []) with
        | none => none
        | some d => some (StreamEvent.content d)
      else if t = ('d' :: 'o' :: 'n' :: 'e' :: []) then some StreamEvent.done
      else if t = ('e' :: 'r' :: 'r' :: 'o' :: 'r' :: []) then
        match lookupField fs ('d' :: 'a' :: 't' :: 'a' :: []) with
        | none => none
        | some d => some (StreamEvent.error d)
      else none

/-- The `data: ` field marker of the wire protocol. -/
def dataMarker : Str := "data: ".toList

/-- Event decoded from one complete line: the body of the
`for (const line of lines)` loop of `sendChatMessage` minus the
dispatch itself — blank lines and lines without the marker are skipped,
the payload after the marker (`line.slice(6)`) is parsed. -/
def lineEvent (line : Str) : Option StreamEvent :=
  if (trim line).isEmpty then none
  else if leadsWith dataMarker line then jsonEvent (line.drop 6)
  else none

/-- Events of a whole text fed as one fragment: the decoded events of
its complete lines, in order (the trailing partial line decodes to
nothing). -/
def decodeEvents (text : Str) : List StreamEvent :=
  (splitNl text).1.filterMap lineEvent

/-! ## Streaming Client

`sendChatMessage` is embedded as a function of the caller's state: the
caller's three optional callbacks are state transformers that return
the updated state together with an optional thrown exception (a JS
callback mutates its closure before throwing, so the state update and
the exception are separate components).  The embedding records every
callback invocation in a trace, distinguishing an `onError` call for a
decoded `error` event from an `onError` call made by the outer
`catch`. -/

/-- The caller's callbacks, each optional as in the source signature.
A call returns the caller's updated state and, when the callback threw,
the thrown message. -/
structure Callbacks (σ : Type u) where
  onChunk : Option (σ → Str → σ × Option Str)
  onDone : Option (σ → σ × Option Str)
  onError : Option (σ → Str → σ × Option Str)

/-- One recorded callback invocation. -/
inductive Call where
  | chunk (data : Str)
  | done
  | errEvent (data : Str)
  | errCatch (msg : Str)
deriving DecidableEq, Repr

/-- Dispatch of one decoded event: the
`if (parsed.type === 'content' && onChunk) ...` chain.  A callback is
invoked only when supplied; an exception it throws is caught by the
same per-line `try`/`catch` that skips malformed JSON, so the thrown
message is dropped and the loop continues with the callback's state
update kept. -/
def dispatchEvent (cbs : Callbacks σ) (s : σ) : StreamEvent → σ × List Call
  | StreamEvent.content d =>
    match cbs.onChunk with
    | none => (s, [])
    | some f => ((f s d).1, [Call.chunk d])
  | StreamEvent.done =>
    match cbs.onDone with
    | none => (s, [])
    | some f => ((f s).1, [Call.done])
  | StreamEvent.error d =>
    match cbs.onError with
    | none => (s, [])
    | some f => ((f s d).1, [Call.errEvent d])

/-- Body of the `for (const line of lines)` loop for one complete
line. -/
def processLine (cbs : Callbacks σ) (s : σ) (line : Str) : σ × List Call :=
  match lineEvent line with
  | none => (s, [])
  | some ev => dispatchEvent cbs s ev

/-- Process the complete lines of one fragment in order, accumulating
the call trace. -/
def runLinesFrom (cbs : Callbacks σ) (p : σ × List Call) (lines : List Str) :
    σ × List Call :=
  lines.foldl
    (fun q line =>
      let r := processLine cbs q.1 line
      (r.1, q.2 ++ r.2))
    p

/-- Process a list of already decoded events in order. -/
def runEventsFrom (cbs : Callbacks σ) (p : σ × List Call)
    (evs : List StreamEvent) : σ × List Call :=
  evs.foldl
    (fun q ev =>
      let r := dispatchEvent cbs q.1 ev
      (r.1, q.2 ++ r.2))
    p

/-- State of the read loop: caller state, carry-over buffer, call
trace. -/
structure LoopState (σ : Type u) where
  st : σ
  buf : Str
  calls : List Call
deriving DecidableEq

/-- One iteration of the `while (true)` read loop for one received
fragment: append to the carry-over buffer, re-split on line boundaries,
keep the partial last line, process the complete lines. -/
def feedFragment (cbs : Callbacks σ) (ls : LoopState σ) (frag : Str) :
    LoopState σ :=
  let sp := splitNl (ls.buf ++ frag)
  let r := runLinesFrom cbs (ls.st, []) sp.1
  ⟨r.1, sp.2, ls.calls ++ r.2⟩

/-- The whole read loop over the fragments delivered by the reader. -/
def runStream (cbs : Callbacks σ) (s : σ) (frags : List Str) : LoopState σ :=
  frags.foldl (feedFragment cbs) ⟨s, [], []⟩

/-- Outcome of the network layer for one request, as seen by
`sendChatMessage`: either the request fails up front (a rejected fetch,
a non-2xx status, an unreadable body — all of which raise before any
fragment is decoded), or it yields a stream of fragments which ends
cleanly (`none`) or with a read exception (`some msg`). -/
inductive NetResult where
  | fail (msg : Str)
  | stream (frags : List Str) (failure : Option Str)

/-- Result of one `sendChatMessage` call: final caller state, the
trace of callback invocations, and the exception escaping to the
caller's surrounding control flow, if any. -/
structure ClientResult (σ : Type u) where
  state : σ
  calls : List Call
  thrown : Option Str
deriving DecidableEq

/-- The outer `catch` of `sendChatMessage`: deliver the exception to
`onError` when supplied (an exception thrown by `onError` itself now
escapes to the caller), otherwise rethrow. -/
def outerCatch (cbs : Callbacks σ) (s : σ) (calls : List Call) (m : Str) :
    ClientResult σ :=
  match cbs.onError with
  | none => ⟨s, calls, some m⟩
  | some f =>
    let r := f s m
    ⟨r.1, calls ++ [Call.errCatch m], r.2⟩

/-- Embedded `sendChatMessage`: the single-attempt request, the read
loop over the response stream, and the outer `try`/`catch`. -/
def sendChatMessage (cbs : Callbacks σ) (s : σ) : NetResult → ClientResult σ
  | NetResult.fail m => outerCatch cbs s [] m
  | NetResult.stream frags failure =>
    let ls := runStream cbs s frags
    match failure with
    | none => ⟨ls.st, ls.calls, none⟩
    | some m => outerCatch cbs ls.st ls.calls m

/-- Decoder-only portion of the read loop: the events produced per
fragment, with the carry-over buffer, ignoring dispatch. -/
def decodeStream (frags : List Str) : List StreamEvent × Str :=
  frags.foldl
    (fun p frag =>
      let sp := splitNl (p.2 ++ frag)
      (p.1 ++ sp.1.filterMap lineEvent, sp.2))
    ([], [])

/-! ## Pipeline lemmas: the buffered loop processes exactly the
complete lines of the whole received text, in order. -/

theorem runLinesFrom_append (cbs : Callbacks σ) (p : σ × List Call)
    (l1 l2 : List Str) :
    runLinesFrom cbs p (l1 ++ l2) = runLinesFrom cbs (runLinesFrom cbs p l1) l2 :=
  List.foldl_append ..

theorem runLinesFrom_cons (cbs : Callbacks σ) (s : σ) (acc : List Call)
    (l : Str) (ls : List Str) :
    runLinesFrom cbs (s, acc) (l :: ls) =
      runLinesFrom cbs
        ((processLine cbs s l).1, acc ++ (processLine cbs s l).2) ls := rfl

theorem runEventsFrom_cons (cbs : Callbacks σ) (s : σ) (acc : List Call)
    (ev : StreamEvent) (evs : List StreamEvent) :
    runEventsFrom cbs (s, acc) (ev :: evs) =
      runEventsFrom cbs
        ((dispatchEvent cbs s ev).1, acc ++ (dispatchEvent cbs s ev).2) evs := rfl

theorem runLinesFrom_calls (cbs : Callbacks σ) (p : σ × List Call)
    (lines : List Str) :
    runLinesFrom cbs p lines =
      ((runLinesFrom cbs (p.1, []) lines).1,
        p.2 ++ (runLinesFrom cbs (p.1, []) lines).2) := by
  induction lines generalizing p with
  | nil => cases p; simp [runLinesFrom]
  | cons l ls ih =>
    rcases p with ⟨s, acc⟩
    rw [runLinesFrom_cons, runLinesFrom_cons,
      ih ((processLine cbs s l).1, acc ++ (processLine cbs s l).2),
      ih ((processLine cbs s l).1, [] ++ (processLine cbs s l).2)]
    simp

theorem runEventsFrom_calls (cbs : Callbacks σ) (p : σ × List Call)
    (evs : List StreamEvent) :
    runEventsFrom cbs p evs =
      ((runEventsFrom cbs (p.1, []) evs).1,
        p.2 ++ (runEventsFrom cbs (p.1, []) evs).2) := by
  induction evs generalizing p with
  | nil => cases p; simp [runEventsFrom]
  | cons ev evs ih =>
    rcases p with ⟨s, acc⟩
    rw [runEventsFrom_cons, runEventsFrom_cons,
      ih ((dispatchEvent cbs s ev).1, acc ++ (dispatchEvent cbs s ev).2),
      ih ((dispatchEvent cbs s ev).1, [] ++ (dispatchEvent cbs s ev).2)]
    simp

theorem runLinesFrom_eq_events (cbs : Callbacks σ) (p : σ × List Call)
    (lines : List Str) :
    runLinesFrom cbs p lines =
      runEventsFrom cbs p (lines.filterMap lineEvent) := by
  induction lines generalizing p with
  | nil => rfl
  | cons l ls ih =>
    rcases p with ⟨s, acc⟩
    simp only [runLinesFrom, List.foldl_cons, List.filterMap_cons] at *
    rcases h : lineEvent l with _ | ev
    · simpa [processLine, h] using ih (s, acc)
    · simpa [processLine, h, runEventsFrom] using
        ih ((dispatchEvent cbs s ev).1, acc ++ (dispatchEvent cbs s ev).2)

theorem foldl_feedFragment (cbs : Callbacks σ) (frags : List Str) (s : σ)
    (buf : Str) (acc : List Call) (hbuf : ∀ c ∈ buf, c ≠ '\n') :
    frags.foldl (feedFragment cbs) ⟨s, buf, acc⟩ =
      ⟨(runLinesFrom cbs (s, []) (splitNl (buf ++ concatAll frags)).1).1,
        (splitNl (buf ++ concatAll frags)).2,
        acc ++ (runLinesFrom cbs (s, []) (splitNl (buf ++ concatAll frags)).1).2⟩ := by
  induction frags generalizing s buf acc with
  | nil =>
    simp [concatAll, splitNl_no_newline hbuf, runLinesFrom]
  | cons f fs ih =>
    have hcarry := splitNl_carry_no_newline (buf ++ f)
    simp only [List.foldl_cons, feedFragment]
    rw [ih _ _ _ hcarry]
    have hsp2 := splitNl_append (splitNl (buf ++ f)).2 (concatAll fs)
    rw [splitNl_no_newline hcarry] at hsp2
    have hsp : splitNl (buf ++ concatAll (f :: fs)) =
        mergeSplit (splitNl (buf ++ f)) (splitNl (concatAll fs)) := by
      rw [show buf ++ concatAll (f :: fs) = (buf ++ f) ++ concatAll fs by
            simp [concatAll], splitNl_append]
    rcases hy : splitNl (concatAll fs) with ⟨lsy, py⟩
    rw [hy] at hsp hsp2
    cases lsy with
    | nil =>
      simp only [mergeSplit] at hsp hsp2
      rw [hsp, hsp2]
      simp [runLinesFrom]
    | cons l ls =>
      simp only [mergeSplit, List.nil_append] at hsp hsp2
      rw [hsp, hsp2, runLinesFrom_append,
        runLinesFrom_calls cbs (runLinesFrom cbs (s, []) (splitNl (buf ++ f)).1)
          (((splitNl (buf ++ f)).2 ++ l) :: ls)]
      simp

/-- The read loop, started with an empty buffer, dispatches exactly the
events decoded from the complete lines of the concatenated received
text, in order. -/
theorem runStream_eq_events (cbs : Callbacks σ) (s : σ) (frags : List Str) :
    runStream cbs s frags =
      ⟨(runEventsFrom cbs (s, []) (decodeEvents (concatAll frags))).1,
        (splitNl (concatAll frags)).2,
        (runEventsFrom cbs (s, []) (decodeEvents (concatAll frags))).2⟩ := by
  have h := foldl_feedFragment cbs frags s [] [] (by intro c hc; cases hc)
  rw [runStream, h]
  simp [runLinesFrom_eq_events, decodeEvents]

/-! ## Conversation Store

Embedding of `useChatStore` (`src/stores/chatStore.ts`) restricted to
the fields and actions the streaming core touches.  `crypto.randomUUID`
identifiers are opaque; they are embedded as `Nat` supplied by the
caller, with freshness stated as a hypothesis where a theorem needs it.
`timestamp`/`createdAt`/`updatedAt` (wall-clock `Date` values) and the
post-stream `citations`/chart fields are never read by the modelled
logic and are omitted from the record types. -/

/-- Message role. -/
inductive Role where
  | user
  | assistant
deriving DecidableEq, Repr

/-- One message of a conversation.  `isStreaming` is an optional
boolean in the source; absent and `false` are indistinguishable to
every reader, so it is embedded as a `Bool` defaulting to `false`. -/
structure Message where
  id : Nat
  role : Role
  content : Str
  isStreaming : Bool := false
deriving DecidableEq, Repr

/-- One conversation. -/
structure Chat where
  id : Nat
  title : Str
  messages : List Message
  datasetId : Option Nat
deriving DecidableEq, Repr

/-- The slice of the global store the streaming core reads and
writes. -/
structure Store where
  chats : List Chat
  activeChat : Option Nat
  activeDataset : Option Nat
deriving DecidableEq, Repr

/-- Title of a freshly created conversation. -/
def newConversationTitle : Str := "New Conversation".toList

/-- The `'...'` appended to a derived title. -/
def titleDots : Str := "...".toList

/-- Embedded `createChat`: prepend an empty conversation, make it
active; its dataset link is the currently active dataset. -/
def createChat (newId : Nat) (st : Store) : Store :=
  { st with
    chats := ⟨newId, newConversationTitle, [], st.activeDataset⟩ :: st.chats
    activeChat := some newId }

/-- Embedded `addMessage`: append to the named conversation; when the
conversation had zero prior messages, set the title to
`message.content.slice(0, 40) + '...'` (note: regardless of the
message's role).  Unknown conversation ids match no chat and the store
is unchanged. -/
def addMessage (chatId : Nat) (message : Message) (st : Store) : Store :=
  { st with
    chats := st.chats.map fun chat =>
      if chat.id = chatId then
        { chat with
          messages := chat.messages ++ [message]
          title :=
            if chat.messages.length = 0 then
              message.content.take 40 ++ titleDots
            else chat.title }
      else chat }

/-- The partial fields `handleSend` passes to `updateMessage`. -/
structure MsgPatch where
  content : Option Str := none
  isStreaming : Option Bool := none
deriving DecidableEq, Repr

/-- Spread-merge `{ ...msg, ...updates }` of a patch into a message. -/
def applyPatch (p : MsgPatch) (m : Message) : Message :=
  { m with
    content := p.content.getD m.content
    isStreaming := p.isStreaming.getD m.isStreaming }

/-- Embedded `updateMessage`: merge the patch into the matching message
of the matching chat; all other messages and chats are untouched;
no-op on unknown ids. -/
def updateMessage (chatId msgId : Nat) (p : MsgPatch) (st : Store) : Store :=
  { st with
    chats := st.chats.map fun chat =>
      if chat.id = chatId then
        { chat with
          messages := chat.messages.map fun m =>
            if m.id = msgId then applyPatch p m else m }
      else chat }

/-- Lookup of a conversation, as `chats.find(c => c.id === id)`. -/
def findChat (st : Store) (chatId : Nat) : Option Chat :=
  st.chats.find? fun c => c.id = chatId

/-- First message with the given id inside a chat. -/
def findMsg (c : Chat) (msgId : Nat) : Option Message :=
  c.messages.find? fun m => m.id = msgId

/-- A message addressed by conversation and message id. -/
def getMsg (st : Store) (chatId msgId : Nat) : Option Message :=
  match findChat st chatId with
  | none => none
  | some c => findMsg c msgId

/-! ## Session Orchestrator

Embedding of `ChatInterface.handleSend` (and the request body it
transmits).  The `fullContent` accumulator lives beside the store in
the client's caller state; the three closures passed to
`sendChatMessage` become `orchCallbacks`. -/

/-- One entry of the request `history`: a role/content pair. -/
structure HistoryEntry where
  role : Role
  content : Str
deriving DecidableEq, Repr

/-- History filter and projection:
`messages.filter(m => m.content && m.content.trim() !== '').map(...)`. -/
def buildHistory (msgs : List Message) : List HistoryEntry :=
  (msgs.filter fun m => !m.content.isEmpty && !(trim m.content).isEmpty).map
    fun m => ⟨m.role, m.content⟩

/-- The JSON body of the chat request. -/
structure ChatRequest where
  message : Str
  history : List HistoryEntry
  datasetId : Option Nat
deriving DecidableEq, Repr

/-- Fresh identifiers a turn consumes (`crypto.randomUUID()` results
and, when no conversation is active, the new conversation's id). -/
structure TurnIds where
  userMsgId : Nat
  aiMsgId : Nat
  newChatId : Nat

/-- Fallback notice substituted when a stream settles successfully with
an empty or whitespace-only accumulator. -/
def fallbackNotice : Str :=
  "(No response from AI. Please try again or check your connection.)".toList

/-- Prefix of the error overwrite: the catch branch of `handleSend`
sets the assistant content to the text `Error: ` followed by the
message of the caught exception. -/
def errMark : Str := "Error: ".toList

/-- The three closures `handleSend` passes to `sendChatMessage`, over
the caller state (store, fullContent): `onChunk` extends the
accumulator and patches the assistant message's content to its current
value; `onDone` is a no-op (settling happens after the await);
`onError` rethrows the error message, intending the outer catch of
`handleSend` to perform the error overwrite. -/
def orchCallbacks (chatId aiMsgId : Nat) : Callbacks (Store × Str) where
  onChunk := some fun p chunk =>
    let fc := p.2 ++ chunk
    ((updateMessage chatId aiMsgId { content := some fc } p.1, fc), none)
  onDone := some fun p => (p, none)
  onError := some fun p err => (p, some err)

/-- Result of one orchestrated turn. -/
structure TurnResult where
  store : Store
  isThinking : Bool
  request : ChatRequest
  calls : List Call
deriving DecidableEq, Repr

/-- Embedded `ChatInterface.handleSend`, one full turn: resolve or
create the conversation, append the user message and the streaming
assistant placeholder, send the request built from the prior messages
(captured from the render closure, i.e. the store before the two
appends), fold the stream through `orchCallbacks`, then settle: on
normal return substitute the fallback notice when the accumulator is
empty or whitespace and clear `isStreaming`, otherwise clear
`isStreaming` only; on a caught exception overwrite the content with
the error string and clear `isStreaming`. -/
def handleSend (ids : TurnIds) (content : Str) (st0 : Store)
    (net : NetResult) : TurnResult :=
  let resolved : Store × Nat :=
    match st0.activeChat with
    | some cid => (st0, cid)
    | none => (createChat ids.newChatId st0, ids.newChatId)
  let chatId := resolved.2
  let priorMsgs : List Message :=
    match st0.activeChat with
    | some cid =>
      match findChat st0 cid with
      | some c => c.messages
      | none => []
    | none => []
  let st2 := addMessage chatId ⟨ids.userMsgId, Role.user, content, false⟩ resolved.1
  let st3 := addMessage chatId ⟨ids.aiMsgId, Role.assistant, [], true⟩ st2
  let req : ChatRequest := ⟨content, buildHistory priorMsgs, st0.activeDataset⟩
  let r := sendChatMessage (orchCallbacks chatId ids.aiMsgId) (st3, []) net
  let stC := r.state.1
  let fullContent := r.state.2
  match r.thrown with
  | none =>
    if fullContent.isEmpty || (trim fullContent).isEmpty then
      ⟨updateMessage chatId ids.aiMsgId
          { content := some fallbackNotice, isStreaming := some false } stC,
        false, req, r.calls⟩
    else
      ⟨updateMessage chatId ids.aiMsgId { isStreaming := some false } stC,
        false, req, r.calls⟩
  | some m =>
    ⟨updateMessage chatId ids.aiMsgId
        { content := some (errMark ++ m), isStreaming := some false } stC,
      false, req, r.calls⟩

/-! ## Store lemmas -/

theorem find?_condMap {α : Type u} (cond : α → Prop) [DecidablePred cond]
    (F : α → α) (hF : ∀ a, cond a → cond (F a)) (l : List α) :
    (l.map fun a => if cond a then F a else a).find? (fun a => decide (cond a)) =
      (l.find? fun a => decide (cond a)).map F := by
  induction l with
  | nil => rfl
  | cons a l ih =>
    by_cases ha : cond a
    · simp [List.find?_cons, ha, hF a ha]
    · simp [List.find?_cons, ha, ih]

theorem find?_append_of_none {α : Type u} (p : α → Bool) (xs ys : List α)
    (h : ∀ x ∈ xs, p x = false) : (xs ++ ys).find? p = ys.find? p := by
  induction xs with
  | nil => rfl
  | cons a l ih =>
    have ha := h a (List.mem_cons_self a l)
    simp [List.find?_cons, ha, ih fun x hx => h x (List.mem_cons_of_mem a hx)]

theorem findChat_addMessage (st : Store) (chatId : Nat) (m : Message) :
    findChat (addMessage chatId m st) chatId =
      (findChat st chatId).map fun chat =>
        { chat with
          messages := chat.messages ++ [m]
          title :=
            if chat.messages.length = 0 then m.content.take 40 ++ titleDots
            else chat.title } := by
  unfold findChat addMessage
  refine find?_condMap (fun c => c.id = chatId) _ ?_ st.chats
  exact fun a ha => ha

theorem findChat_updateMessage (st : Store) (chatId msgId : Nat) (p : MsgPatch) :
    findChat (updateMessage chatId msgId p st) chatId =
      (findChat st chatId).map fun chat =>
        { chat with
          messages := chat.messages.map fun m =>
            if m.id = msgId then applyPatch p m else m } := by
  unfold findChat updateMessage
  refine find?_condMap (fun c => c.id = chatId) _ ?_ st.chats
  exact fun a ha => ha

theorem applyPatch_id (p : MsgPatch) (m : Message) :
    (applyPatch p m).id = m.id := rfl

theorem getMsg_updateMessage (st : Store) (chatId msgId : Nat) (p : MsgPatch) :
    getMsg (updateMessage chatId msgId p st) chatId msgId =
      (getMsg st chatId msgId).map (applyPatch p) := by
  unfold getMsg
  rw [findChat_updateMessage]
  rcases findChat st chatId with _ | c
  · rfl
  · simp only [Option.map]
    unfold findMsg
    refine find?_condMap (fun m => m.id = msgId) (applyPatch p) ?_ c.messages
    exact fun a ha => ha

theorem getMsg_eq_findMsg (st : Store) (chatId msgId : Nat) (c : Chat)
    (h : findChat st chatId = some c) :
    getMsg st chatId msgId = findMsg c msgId := by
  unfold getMsg
  rw [h]

/-- After the two appends of a turn, the assistant placeholder is
found by its id: the turn's fresh ids collide with no prior message. -/
theorem getMsg_after_appends (st : Store) (chatId : Nat) (c0 : Chat)
    (uid aid : Nat) (content : Str)
    (hchat : findChat st chatId = some c0)
    (hfresh : ∀ m ∈ c0.messages, m.id ≠ aid)
    (hids : uid ≠ aid) :
    getMsg
      (addMessage chatId ⟨aid, Role.assistant, [], true⟩
        (addMessage chatId ⟨uid, Role.user, content, false⟩ st))
      chatId aid = some ⟨aid, Role.assistant, [], true⟩ := by
  have h1 := findChat_addMessage
    (addMessage chatId ⟨uid, Role.user, content, false⟩ st) chatId
    ⟨aid, Role.assistant, [], true⟩
  rw [findChat_addMessage st chatId ⟨uid, Role.user, content, false⟩,
    hchat] at h1
  simp only [Option.map] at h1
  rw [getMsg_eq_findMsg _ _ _ _ h1]
  unfold findMsg
  dsimp only
  rw [List.append_assoc, find?_append_of_none _ c0.messages _
    (fun m hm => by simpa using hfresh m hm)]
  simp [List.find?_cons, hids]

/-- Payloads of the `content` events of an event sequence, in order. -/
def contentPayloads : List StreamEvent → List Str :=
  List.filterMap fun ev =>
    match ev with
    | StreamEvent.content d => some d
    | _ => none

/-- Folding any decoded event sequence through the orchestrator's
callbacks keeps the assistant placeholder streaming-true and its
content equal to the accumulator, which grows by exactly the `content`
payloads in order (`done` is a no-op, the `onError` rethrow is
swallowed by the per-line catch and changes nothing). -/
theorem orch_runEventsFrom (cid aid : Nat) (evs : List StreamEvent) :
    ∀ (st : Store) (fc : Str) (acc : List Call),
      getMsg st cid aid = some ⟨aid, Role.assistant, fc, true⟩ →
      getMsg (runEventsFrom (orchCallbacks cid aid) ((st, fc), acc) evs).1.1
          cid aid =
        some ⟨aid, Role.assistant,
          (runEventsFrom (orchCallbacks cid aid) ((st, fc), acc) evs).1.2,
          true⟩ ∧
      (runEventsFrom (orchCallbacks cid aid) ((st, fc), acc) evs).1.2 =
        fc ++ concatAll (contentPayloads evs) := by
  induction evs with
  | nil =>
    intro st fc acc h
    simpa [runEventsFrom, contentPayloads, concatAll] using h
  | cons ev evs ih =>
    intro st fc acc h
    cases ev with
    | content d =>
      have hstep :
          runEventsFrom (orchCallbacks cid aid) ((st, fc), acc)
              (StreamEvent.content d :: evs) =
            runEventsFrom (orchCallbacks cid aid)
              ((updateMessage cid aid { content := some (fc ++ d) } st,
                fc ++ d), acc ++ [Call.chunk d]) evs := rfl
      have hmsg : getMsg (updateMessage cid aid { content := some (fc ++ d) } st)
          cid aid = some ⟨aid, Role.assistant, fc ++ d, true⟩ := by
        rw [getMsg_updateMessage, h]
        rfl
      have := ih (updateMessage cid aid { content := some (fc ++ d) } st)
        (fc ++ d) (acc ++ [Call.chunk d]) hmsg
      rw [hstep]
      simpa [contentPayloads, concatAll, List.append_assoc] using this
    | done =>
      have hstep :
          runEventsFrom (orchCallbacks cid aid) ((st, fc), acc)
              (StreamEvent.done :: evs) =
            runEventsFrom (orchCallbacks cid aid)
              ((st, fc), acc ++ [Call.done]) evs := rfl
      have := ih st fc (acc ++ [Call.done]) h
      rw [hstep]
      simpa [contentPayloads] using this
    | error d =>
      have hstep :
          runEventsFrom (orchCallbacks cid aid) ((st, fc), acc)
              (StreamEvent.error d :: evs) =
            runEventsFrom (orchCallbacks cid aid)
              ((st, fc), acc ++ [Call.errEvent d]) evs := rfl
      have := ih st fc (acc ++ [Call.errEvent d]) h
      rw [hstep]
      simpa [contentPayloads] using this

/-! ## Trace and trim helpers -/

/-- The callback trace a fully supplied caller receives for a decoded
event sequence. -/
def traceOf : List StreamEvent → List Call :=
  List.map fun ev =>
    match ev with
    | StreamEvent.content d => Call.chunk d
    | StreamEvent.done => Call.done
    | StreamEvent.error d => Call.errEvent d

/-- Number of outer-catch `onError` invocations in a trace. -/
def countErrCatch : List Call → Nat :=
  List.countP fun c =>
    match c with
    | Call.errCatch _ => true
    | _ => false

theorem runEventsFrom_trace_all {σ : Type u} (f : σ → Str → σ × Option Str)
    (g : σ → σ × Option Str) (h : σ → Str → σ × Option Str)
    (evs : List StreamEvent) :
    ∀ (s : σ) (acc : List Call),
      (runEventsFrom ⟨some f, some g, some h⟩ (s, acc) evs).2 =
        acc ++ traceOf evs := by
  induction evs with
  | nil => intro s acc; simp [runEventsFrom, traceOf]
  | cons ev evs ih =>
    intro s acc
    cases ev <;>
      simp [runEventsFrom_cons, dispatchEvent, ih, traceOf]

theorem dispatchEvent_no_errCatch (cbs : Callbacks σ) (s : σ)
    (ev : StreamEvent) :
    countErrCatch (dispatchEvent cbs s ev).2 = 0 := by
  cases ev with
  | content d => cases h : cbs.onChunk <;> simp [dispatchEvent, h, countErrCatch]
  | done => cases h : cbs.onDone <;> simp [dispatchEvent, h, countErrCatch]
  | error d => cases h : cbs.onError <;> simp [dispatchEvent, h, countErrCatch]

theorem countErrCatch_append (l1 l2 : List Call) :
    countErrCatch (l1 ++ l2) = countErrCatch l1 + countErrCatch l2 :=
  List.countP_append ..

theorem runEventsFrom_no_errCatch (cbs : Callbacks σ) (evs : List StreamEvent) :
    ∀ (s : σ) (acc : List Call),
      countErrCatch (runEventsFrom cbs (s, acc) evs).2 = countErrCatch acc := by
  induction evs with
  | nil => intro s acc; simp [runEventsFrom]
  | cons ev evs ih =>
    intro s acc
    rw [runEventsFrom_cons, ih, countErrCatch_append,
      dispatchEvent_no_errCatch]
    omega

theorem runStream_no_errCatch (cbs : Callbacks σ) (s : σ) (frags : List Str) :
    countErrCatch (runStream cbs s frags).calls = 0 := by
  rw [runStream_eq_events]
  exact runEventsFrom_no_errCatch cbs _ s []

theorem trim_nil : trim [] = [] := rfl

/-- The truthiness test `msg.content && msg.content.trim() !== ''` is
equivalent to the trimmed content being non-empty. -/
theorem content_filter_eq (s : Str) :
    (!s.isEmpty && !(trim s).isEmpty) = !(trim s).isEmpty := by
  cases s with
  | nil => rfl
  | cons c cs => simp [List.isEmpty]

/-- The settle test `!fullContent || fullContent.trim() === ''` is
equivalent to the trimmed accumulator being empty. -/
theorem settle_test_eq (s : Str) :
    (s.isEmpty || (trim s).isEmpty) = (trim s).isEmpty := by
  cases s with
  | nil => rfl
  | cons c cs => simp [List.isEmpty]

theorem decodeStream_aux (frags : List Str) :
    ∀ (evs0 : List StreamEvent) (buf : Str), (∀ c ∈ buf, c ≠ '\n') →
      frags.foldl
          (fun p frag =>
            let sp := splitNl (p.2 ++ frag)
            (p.1 ++ sp.1.filterMap lineEvent, sp.2))
          (evs0, buf) =
        (evs0 ++ (splitNl (buf ++ concatAll frags)).1.filterMap lineEvent,
          (splitNl (buf ++ concatAll frags)).2) := by
  induction frags with
  | nil =>
    intro evs0 buf hbuf
    simp [concatAll, splitNl_no_newline hbuf]
  | cons f fs ih =>
    intro evs0 buf hbuf
    have hcarry := splitNl_carry_no_newline (buf ++ f)
    simp only [List.foldl_cons]
    rw [ih _ _ hcarry]
    have hsp2 := splitNl_append (splitNl (buf ++ f)).2 (concatAll fs)
    rw [splitNl_no_newline hcarry] at hsp2
    have hsp : splitNl (buf ++ concatAll (f :: fs)) =
        mergeSplit (splitNl (buf ++ f)) (splitNl (concatAll fs)) := by
      rw [show buf ++ concatAll (f :: fs) = (buf ++ f) ++ concatAll fs by
            simp [concatAll], splitNl_append]
    rcases hy : splitNl (concatAll fs) with ⟨lsy, py⟩
    rw [hy] at hsp hsp2
    cases lsy with
    | nil =>
      simp only [mergeSplit] at hsp hsp2
      rw [hsp, hsp2]
      simp
    | cons l ls =>
      simp only [mergeSplit, List.nil_append] at hsp hsp2
      rw [hsp, hsp2]
      simp

/-! ## Concrete fixtures used by counterexamples and witnesses -/

/-- Callbacks over a unit state that record invocations in the trace
and never throw. -/
def cbsUnit : Callbacks Unit where
  onChunk := some fun s _ => (s, none)
  onDone := some fun s => (s, none)
  onError := some fun s _ => (s, none)

/-- Callbacks whose error callback itself throws. -/
def cbsThrow : Callbacks Unit where
  onChunk := none
  onDone := none
  onError := some fun s _ => (s, some ('c' :: 'b' :: []))

/-- Callbacks with a non-throwing error callback only. -/
def cbsNoThrow : Callbacks Unit where
  onChunk := none
  onDone := none
  onError := some fun s _ => (s, none)

/-- A stream whose first terminal `done` frame is followed by a further
`content` frame. -/
def c3frags : List Str :=
  ["data: \x7b\"type\":\"done\"\x7d\ndata: \x7b\"type\":\"content\",\"data\":\"x\"\x7d\n".toList]

/-- A single complete `content` frame. -/
def c10frags : List Str :=
  ["data: \x7b\"type\":\"content\",\"data\":\"x\"\x7d\n".toList]

/-- A trailing `data:` frame not terminated by a newline. -/
def c10tail : Str := "data: \x7b\"type\":\"done\"\x7d".toList

/-! ## Claim theorems: Transport Decoder and Streaming Client -/

/-- Claim C5: the Transport Decoder is split-invariant — feeding any
partition of a text through the carry-over buffer fragment by fragment
yields exactly the typed event sequence (and carry-over buffer) of
feeding the whole text as a single fragment. -/
theorem spec_c5_split_invariance (frags : List Str) :
    decodeStream frags = decodeStream [concatAll frags] := by
  unfold decodeStream
  rw [decodeStream_aux frags [] [] (by intro c hc; cases hc),
    decodeStream_aux [concatAll frags] [] [] (by intro c hc; cases hc)]
  simp [concatAll]

/-- Claim C10: when the response stream ends while the carry-over
buffer holds a partial line — here, any trailing fragment without a
newline, such as a `data:` frame missing its terminator — that buffered
data produces no event and no callback: the client's result is
identical to the run without the trailing fragment. -/
theorem spec_c10_trailing_discard {σ : Type u} (cbs : Callbacks σ) (s : σ)
    (frags : List Str) (tl : Str) (h : ∀ c ∈ tl, c ≠ '\n') :
    sendChatMessage cbs s (NetResult.stream (frags ++ [tl]) none) =
      sendChatMessage cbs s (NetResult.stream frags none) := by
  have hbuf : ∀ c ∈ (runStream cbs s frags).buf, c ≠ '\n' := by
    rw [runStream_eq_events]
    exact splitNl_carry_no_newline _
  have hnone : ∀ c ∈ (runStream cbs s frags).buf ++ tl, c ≠ '\n' := by
    intro c hc
    rcases List.mem_append.mp hc with hc | hc
    · exact hbuf c hc
    · exact h c hc
  have hrs : runStream cbs s (frags ++ [tl]) =
      feedFragment cbs (runStream cbs s frags) tl := by
    unfold runStream
    rw [List.foldl_append]
    rfl
  have hfeed : feedFragment cbs (runStream cbs s frags) tl =
      ⟨(runStream cbs s frags).st, (runStream cbs s frags).buf ++ tl,
        (runStream cbs s frags).calls⟩ := by
    unfold feedFragment
    rw [splitNl_no_newline hnone]
    simp [runLinesFrom]
  simp [sendChatMessage, hrs, hfeed]

/-- Claim C10 witness: a concrete stream with a trailing unterminated
`done` frame delivers exactly the events of the stream without it. -/
theorem spec_c10_witness :
    (∀ c ∈ c10tail, c ≠ '\n') ∧
      sendChatMessage cbsUnit () (NetResult.stream (c10frags ++ [c10tail]) none) =
        sendChatMessage cbsUnit () (NetResult.stream c10frags none) :=
  ⟨by decide, spec_c10_trailing_discard cbsUnit () c10frags c10tail (by decide)⟩

/-- Claim C3 counterexample: the read loop does not stop at the first
terminal event — after the first `done` frame of `c3frags`, the chunk
callback is still invoked for the later `content` frame, refuting the
claim that no callback fires for frames after the first terminal
event. -/
theorem spec_c3_counterexample :
    (sendChatMessage cbsUnit () (NetResult.stream c3frags none)).calls =
      [Call.done, Call.chunk ('x' :: [])] := by decide

/-- Claim C3 (amended): the Streaming Client consumes the whole stream
and dispatches one callback per decoded event in stream order,
including events that follow the first `done` or `error` — it never
stops early. -/
theorem spec_c3_amended {σ : Type u} (f : σ → Str → σ × Option Str)
    (g : σ → σ × Option Str) (h : σ → Str → σ × Option Str) (s : σ)
    (frags : List Str) :
    (sendChatMessage ⟨some f, some g, some h⟩ s
        (NetResult.stream frags none)).calls =
      traceOf (decodeEvents (concatAll frags)) := by
  simp [sendChatMessage, runStream_eq_events, runEventsFrom_trace_all]

/-- Claim C2 counterexample: with an error callback supplied that
itself throws, an exception raised while establishing the stream (a
failed request) escapes `sendChatMessage` to the caller's control flow,
refuting the claim that no exception propagates even when the error
callback throws. -/
theorem spec_c2_counterexample :
    cbsThrow.onError.isSome = true ∧
      (sendChatMessage cbsThrow ()
          (NetResult.fail ('b' :: 'o' :: 'o' :: 'm' :: []))).thrown =
        some ('c' :: 'b' :: []) := by decide

/-- Claim C2 (amended): provided the supplied error callback itself
returns normally, any exception raised while establishing or reading
the stream is delivered through the error callback exactly once (one
outer-catch invocation; none on a clean stream) and no exception
escapes `sendChatMessage` — even when the chunk callback throws, since
a callback exception during per-line dispatch is swallowed by the
line-level JSON-skip handler and never reaches the error callback. -/
theorem spec_c2_amended {σ : Type u} (cbs : Callbacks σ)
    (f : σ → Str → σ × Option Str) (s : σ) (net : NetResult)
    (hcb : cbs.onError = some f) (hok : ∀ t m, (f t m).2 = none) :
    (sendChatMessage cbs s net).thrown = none ∧
      countErrCatch (sendChatMessage cbs s net).calls =
        (match net with
          | NetResult.fail _ => 1
          | NetResult.stream _ (some _) => 1
          | NetResult.stream _ none => 0) := by
  cases net with
  | fail m =>
    refine ⟨?_, ?_⟩
    · simp [sendChatMessage, outerCatch, hcb, hok]
    · simp [sendChatMessage, outerCatch, hcb, countErrCatch]
  | stream frags failure =>
    cases failure with
    | none =>
      refine ⟨?_, ?_⟩
      · simp [sendChatMessage]
      · simpa [sendChatMessage] using runStream_no_errCatch cbs s frags
    | some m =>
      refine ⟨?_, ?_⟩
      · simp [sendChatMessage, outerCatch, hcb, hok]
      · have h0 := runStream_no_errCatch cbs s frags
        simp only [sendChatMessage, outerCatch, hcb]
        rw [countErrCatch_append, h0]
        rfl

/-- Claim C2 witness: a concrete failed request with a non-throwing
error callback — nothing escapes and the error callback ran exactly
once. -/
theorem spec_c2_witness :
    cbsNoThrow.onError = some (fun (s : Unit) (_ : Str) => (s, none)) ∧
      (sendChatMessage cbsNoThrow ()
          (NetResult.fail ('x' :: []))).thrown = none ∧
        countErrCatch (sendChatMessage cbsNoThrow ()
          (NetResult.fail ('x' :: []))).calls = 1 :=
  ⟨rfl, spec_c2_amended cbsNoThrow _ () (NetResult.fail ('x' :: [])) rfl
    (fun _ _ => rfl)⟩

/-! ## Claim theorems: Session Orchestrator folding and settling -/

theorem contentPayloads_shape (cs : List Str) :
    contentPayloads (cs.map StreamEvent.content ++ [StreamEvent.done]) = cs := by
  induction cs with
  | nil => rfl
  | cons c cs ih => simpa [contentPayloads] using ih

theorem traceOf_shape (cs : List Str) :
    traceOf (cs.map StreamEvent.content ++ [StreamEvent.done]) =
      cs.map Call.chunk ++ [Call.done] := by
  induction cs with
  | nil => rfl
  | cons c cs ih => simp [traceOf, ih]

theorem orch_trace (cid aid : Nat) (p : (Store × Str) × List Call)
    (evs : List StreamEvent) :
    (runEventsFrom (orchCallbacks cid aid) p evs).2 = p.2 ++ traceOf evs := by
  rcases p with ⟨s, acc⟩
  exact runEventsFrom_trace_all _ _ _ evs s acc

/-- Claim C1: when the decoded events of a stream are `content`
payloads `c1..cn` followed by `done`, the orchestrator's fold — the
`onChunk` closure accumulating into `fullContent` and patching the
assistant placeholder — leaves the placeholder's `content` equal to the
concatenation `c1 ++ ... ++ cn`, and the chunk callback fired exactly
once per payload, in order (the trace is `chunk c1, ..., chunk cn,
done`): no payload is reordered, duplicated or dropped.  The terminal
settle then either preserves this content or, when it is
whitespace-only, substitutes the fallback notice (claim C6). -/
theorem spec_c1_content_fold (cid aid : Nat) (st : Store) (frags : List Str)
    (cs : List Str)
    (hmsg : getMsg st cid aid = some ⟨aid, Role.assistant, [], true⟩)
    (hdec : decodeEvents (concatAll frags) =
      cs.map StreamEvent.content ++ [StreamEvent.done]) :
    getMsg (sendChatMessage (orchCallbacks cid aid) (st, ([] : Str))
          (NetResult.stream frags none)).state.1 cid aid =
        some ⟨aid, Role.assistant, concatAll cs, true⟩ ∧
      (sendChatMessage (orchCallbacks cid aid) (st, ([] : Str))
          (NetResult.stream frags none)).calls =
        cs.map Call.chunk ++ [Call.done] := by
  have hrun := runStream_eq_events (orchCallbacks cid aid)
    (st, ([] : Str)) frags
  have horch := orch_runEventsFrom cid aid (decodeEvents (concatAll frags))
    st [] [] hmsg
  constructor
  · simp only [sendChatMessage, hrun]
    rw [horch.1, horch.2, hdec, contentPayloads_shape]
    simp
  · simp only [sendChatMessage, hrun, hdec]
    rw [orch_trace, traceOf_shape]
    simp

/-- Normal form of a client run over a cleanly ending stream. -/
theorem sendChatMessage_stream_none (cbs : Callbacks σ) (s : σ)
    (frags : List Str) :
    sendChatMessage cbs s (NetResult.stream frags none) =
      ⟨(runEventsFrom cbs (s, []) (decodeEvents (concatAll frags))).1,
        (runEventsFrom cbs (s, []) (decodeEvents (concatAll frags))).2,
        none⟩ := by
  simp [sendChatMessage, runStream_eq_events]

/-- Claim C6: on a successfully completing stream, the settle step of
`handleSend` substitutes the fixed fallback notice exactly when the
accumulated content — the concatenation of the decoded `content`
payloads — is empty or whitespace-only, and otherwise preserves it
unchanged; in both cases `isStreaming` is cleared. -/
theorem spec_c6_settle (ids : TurnIds) (content : Str) (st0 : Store)
    (cid : Nat) (c0 : Chat) (frags : List Str)
    (hactive : st0.activeChat = some cid)
    (hchat : findChat st0 cid = some c0)
    (hfresh : ∀ m ∈ c0.messages, m.id ≠ ids.aiMsgId)
    (hids : ids.userMsgId ≠ ids.aiMsgId) :
    getMsg (handleSend ids content st0 (NetResult.stream frags none)).store
        cid ids.aiMsgId =
      some ⟨ids.aiMsgId, Role.assistant,
        if (trim (concatAll (contentPayloads
              (decodeEvents (concatAll frags))))).isEmpty = true then
          fallbackNotice
        else concatAll (contentPayloads (decodeEvents (concatAll frags))),
        false⟩ := by
  have hsetup := getMsg_after_appends st0 cid c0 ids.userMsgId ids.aiMsgId
    content hchat hfresh hids
  have horch := orch_runEventsFrom cid ids.aiMsgId
    (decodeEvents (concatAll frags))
    (addMessage cid ⟨ids.aiMsgId, Role.assistant, [], true⟩
      (addMessage cid ⟨ids.userMsgId, Role.user, content, false⟩ st0))
    [] [] hsetup
  rw [List.nil_append] at horch
  simp only [handleSend, hactive, hchat, sendChatMessage_stream_none]
  rw [horch.2, settle_test_eq]
  by_cases hc : (trim (concatAll (contentPayloads
      (decodeEvents (concatAll frags))))).isEmpty = true
  · simp [hc, getMsg_updateMessage, horch.1, horch.2, applyPatch]
  · simp [hc, getMsg_updateMessage, horch.1, horch.2, applyPatch]

/-! ## Turn fixtures -/

/-- A store with one empty active conversation. -/
def turnStore : Store := ⟨[⟨0, 't' :: [], [], none⟩], some 0, none⟩

/-- Fresh identifiers for one concrete turn. -/
def turnIdsW : TurnIds := ⟨1, 2, 3⟩

/-- A store whose active conversation already holds the streaming
placeholder (the state right before the client run of a turn). -/
def c1store : Store :=
  ⟨[⟨0, 't' :: [], [⟨2, Role.assistant, [], true⟩], none⟩], some 0, none⟩

/-- Two `content` frames and a `done` frame, split mid-marker across
two fragments. -/
def c1frags : List Str :=
  ["data: \x7b\"type\":\"content\",\"data\":\"Hel\"\x7d\nda".toList,
    "ta: \x7b\"type\":\"content\",\"data\":\"lo\"\x7d\ndata: \x7b\"type\":\"done\"\x7d\n".toList]

/-- The payloads carried by `c1frags`. -/
def c1cs : List Str := ['H' :: 'e' :: 'l' :: [], 'l' :: 'o' :: []]

/-- One `content` frame and a `done` frame. -/
def c6frags : List Str :=
  ["data: \x7b\"type\":\"content\",\"data\":\"hi\"\x7d\ndata: \x7b\"type\":\"done\"\x7d\n".toList]

/-- Claim C1 witness: the two-fragment stream `c1frags` (one frame even
split across the fragment boundary) folds to the concatenation
`Hello`, one chunk callback per payload, in order. -/
theorem spec_c1_witness :
    (getMsg c1store 0 2 = some ⟨2, Role.assistant, [], true⟩ ∧
      decodeEvents (concatAll c1frags) =
        c1cs.map StreamEvent.content ++ [StreamEvent.done]) ∧
      getMsg (sendChatMessage (orchCallbacks 0 2) (c1store, ([] : Str))
            (NetResult.stream c1frags none)).state.1 0 2 =
          some ⟨2, Role.assistant, concatAll c1cs, true⟩ ∧
        (sendChatMessage (orchCallbacks 0 2) (c1store, ([] : Str))
            (NetResult.stream c1frags none)).calls =
          c1cs.map Call.chunk ++ [Call.done] :=
  ⟨⟨by decide, by decide⟩,
    spec_c1_content_fold 0 2 c1store c1frags c1cs (by decide) (by decide)⟩

/-- Claim C6 witness: a concrete turn over `c6frags` settles with the
accumulated `hi` preserved and `isStreaming` cleared. -/
theorem spec_c6_witness :
    (turnStore.activeChat = some 0 ∧
      findChat turnStore 0 = some ⟨0, 't' :: [], [], none⟩ ∧
      turnIdsW.userMsgId ≠ turnIdsW.aiMsgId) ∧
      getMsg (handleSend turnIdsW ('q' :: []) turnStore
          (NetResult.stream c6frags none)).store 0 turnIdsW.aiMsgId =
        some ⟨2, Role.assistant, 'h' :: 'i' :: [], false⟩ :=
  ⟨⟨rfl, by decide, by decide⟩, by
    rw [spec_c6_settle turnIdsW ('q' :: []) turnStore 0 ⟨0, 't' :: [], [], none⟩
      c6frags rfl (by decide) (by decide) (by decide)]
    decide⟩

/-! ## Claim theorems: request history, error paths, titles -/

theorem handleSend_request (ids : TurnIds) (content : Str) (st0 : Store)
    (net : NetResult) :
    (handleSend ids content st0 net).request =
      ⟨content,
        buildHistory
          (match st0.activeChat with
            | some cid =>
              match findChat st0 cid with
              | some c => c.messages
              | none => []
            | none => []),
        st0.activeDataset⟩ := by
  unfold handleSend
  dsimp only
  split
  · split <;> rfl
  · rfl

/-- Claim C9: every request a turn transmits carries as `history`
exactly the prior conversation's messages whose trimmed content is
non-empty, projected to role/content pairs in their original
chronological order; no transmitted entry has empty or whitespace-only
content. -/
theorem spec_c9_history (ids : TurnIds) (content : Str) (st0 : Store)
    (cid : Nat) (c0 : Chat) (net : NetResult)
    (hactive : st0.activeChat = some cid)
    (hchat : findChat st0 cid = some c0) :
    (handleSend ids content st0 net).request.history =
        (c0.messages.filter fun m => !(trim m.content).isEmpty).map
          (fun m => (⟨m.role, m.content⟩ : HistoryEntry)) ∧
      ∀ e ∈ (handleSend ids content st0 net).request.history,
        (trim e.content).isEmpty = false := by
  have hreq := handleSend_request ids content st0 net
  simp only [hactive, hchat] at hreq
  constructor
  · rw [hreq]
    unfold buildHistory
    exact congrArg _ (List.filter_congr fun m _ => content_filter_eq m.content)
  · intro e he
    rw [hreq] at he
    unfold buildHistory at he
    rcases List.mem_map.mp he with ⟨m, hm, rfl⟩
    have := (List.mem_filter.mp hm).2
    simp only [Bool.and_eq_true, Bool.not_eq_true'] at this
    exact this.2

/-- A conversation holding one whitespace-content and two non-empty
messages. -/
def c9chat : Chat :=
  ⟨0, 't' :: [],
    [⟨10, Role.user, 'a' :: [], false⟩,
      ⟨11, Role.assistant, ' ' :: [], false⟩,
      ⟨12, Role.assistant, 'b' :: [], false⟩], none⟩

/-- Store for the C9 witness. -/
def c9store : Store := ⟨[c9chat], some 0, none⟩

/-- Claim C9 witness: the whitespace-only message of `c9chat` is
excluded from the transmitted history; the two non-empty ones are sent
in order. -/
theorem spec_c9_witness :
    (c9store.activeChat = some 0 ∧ findChat c9store 0 = some c9chat) ∧
      (handleSend turnIdsW ('q' :: []) c9store
            (NetResult.stream [] none)).request.history =
          (c9chat.messages.filter fun m => !(trim m.content).isEmpty).map
            (fun m => (⟨m.role, m.content⟩ : HistoryEntry)) ∧
        ∀ e ∈ (handleSend turnIdsW ('q' :: []) c9store
            (NetResult.stream [] none)).request.history,
          (trim e.content).isEmpty = false :=
  ⟨⟨rfl, by decide⟩,
    spec_c9_history turnIdsW ('q' :: []) c9store 0 c9chat
      (NetResult.stream [] none) rfl (by decide)⟩

/-- The C7 stream: two `content` frames then an `error` frame. -/
def c7frags : List Str :=
  ["data: \x7b\"type\":\"content\",\"data\":\"Hel\"\x7d\n".toList,
    "data: \x7b\"type\":\"content\",\"data\":\"lo\"\x7d\n".toList,
    "data: \x7b\"type\":\"error\",\"data\":\"boom\"\x7d\n".toList]

/-- Claim C7, divergence at the failing input: after folding `Hel` and
`lo`, a decoded `error` event does dispatch the orchestrator's
`onError` (third trace entry), but its deliberate rethrow is swallowed
by the decoder's per-line JSON-skip catch, so the turn settles through
the success path: the final content is the accumulated `Hello` — not
the error string the claim (and the orchestrator's own catch branch)
prescribes — with `isStreaming` cleared.  The error overwrite the claim
describes does occur when the error terminal is a network failure
rather than a decoded `error` event (third conjunct). -/
theorem spec_c7_error_event_divergence :
    getMsg (handleSend turnIdsW ('q' :: []) turnStore
          (NetResult.stream c7frags none)).store 0 2 =
        some ⟨2, Role.assistant, "Hello".toList, false⟩ ∧
      (handleSend turnIdsW ('q' :: []) turnStore
          (NetResult.stream c7frags none)).calls =
        [Call.chunk ("Hel".toList), Call.chunk ("lo".toList),
          Call.errEvent ("boom".toList)] ∧
      getMsg (handleSend turnIdsW ('q' :: []) turnStore
          (NetResult.stream c7frags (some ("boom".toList)))).store 0 2 =
        some ⟨2, Role.assistant, "Error: boom".toList, false⟩ := by decide

/-- A store with one empty, default-titled conversation. -/
def c4store : Store := ⟨[⟨7, newConversationTitle, [], none⟩], none, none⟩

/-- Claim C4 counterexample: appending a first message whose role is
`assistant` to an empty conversation does change the title — the code
tests only `chat.messages.length === 0` and ignores the role, refuting
the claim that the title is left unchanged in that case. -/
theorem spec_c4_counterexample :
    (findChat c4store 7).map Chat.title = some newConversationTitle ∧
      (findChat
          (addMessage 7 ⟨1, Role.assistant, 'h' :: 'i' :: [], false⟩ c4store)
          7).map Chat.title =
        some ('h' :: 'i' :: '.' :: '.' :: '.' :: []) ∧
      ('h' :: 'i' :: '.' :: '.' :: '.' :: []) ≠ newConversationTitle := by
  decide

/-- Claim C4 (amended): `addMessage` derives the conversation's title
from the fixed-length 40-character prefix of the appended message's
content (suffixed with dots) exactly when the conversation has zero
prior messages — regardless of the message's role — and leaves the
title unchanged otherwise. -/
theorem spec_c4_amended (st : Store) (cid : Nat) (m : Message) (c0 : Chat)
    (hchat : findChat st cid = some c0) :
    (findChat (addMessage cid m st) cid).map Chat.title =
      some
        (if c0.messages.isEmpty = true then m.content.take 40 ++ titleDots
          else c0.title) := by
  rw [findChat_addMessage, hchat]
  rcases c0 with ⟨i, t, msgs, ds⟩
  cases msgs <;> simp

/-- Claim C4 witness: a first user message derives the title from its
content prefix. -/
theorem spec_c4_witness :
    findChat c4store 7 = some ⟨7, newConversationTitle, [], none⟩ ∧
      (findChat
          (addMessage 7 ⟨1, Role.user, "hello".toList, false⟩ c4store)
          7).map Chat.title = some ("hello".toList ++ titleDots) :=
  ⟨by decide, by
    rw [spec_c4_amended c4store 7 ⟨1, Role.user, "hello".toList, false⟩
      ⟨7, newConversationTitle, [], none⟩ (by decide)]
    decide⟩

/-! ## Claim C8: single in-flight streaming message

The turn lifecycle of `handleSend` interleaved with the guarded send
input of `ChatInput` is modelled as a labelled transition system: a
`submit` is only enabled while `isThinking` is false (the `isLoading`
guard) and with non-blank text; the `content`-chunk patches and the
terminal settles of the in-flight turn are the remaining transitions,
with the ephemeral Streaming Session (target conversation, placeholder
id, accumulator) as the session record. -/

/-- Ephemeral Streaming Session of one in-flight turn. -/
structure Flight where
  chatId : Nat
  aiMsgId : Nat
  acc : Str
deriving DecidableEq, Repr

/-- Orchestrator-level system state. -/
structure SysState where
  store : Store
  thinking : Bool
  inflight : Option Flight
deriving DecidableEq, Repr

/-- Effect of a submit: resolve or create the conversation, append the
user message and the streaming placeholder, raise `isThinking`, open
the session. -/
def submitEffect (ids : TurnIds) (content : Str) (s : SysState) : SysState :=
  let resolved : Store × Nat :=
    match s.store.activeChat with
    | some cid => (s.store, cid)
    | none => (createChat ids.newChatId s.store, ids.newChatId)
  ⟨addMessage resolved.2 ⟨ids.aiMsgId, Role.assistant, [], true⟩
      (addMessage resolved.2 ⟨ids.userMsgId, Role.user, content, false⟩
        resolved.1),
    true, some ⟨resolved.2, ids.aiMsgId, []⟩⟩

/-- Effect of one `content` chunk callback: extend the accumulator and
patch the placeholder's content to its new value. -/
def chunkEffect (f : Flight) (d : Str) (s : SysState) : SysState :=
  ⟨updateMessage f.chatId f.aiMsgId { content := some (f.acc ++ d) } s.store,
    s.thinking, some ⟨f.chatId, f.aiMsgId, f.acc ++ d⟩⟩

/-- Effect of the success settle: fallback substitution when the
accumulator is blank, `isStreaming` cleared, session closed. -/
def settleOkEffect (f : Flight) (s : SysState) : SysState :=
  ⟨if f.acc.isEmpty || (trim f.acc).isEmpty then
      updateMessage f.chatId f.aiMsgId
        { content := some fallbackNotice, isStreaming := some false } s.store
    else
      updateMessage f.chatId f.aiMsgId { isStreaming := some false } s.store,
    false, none⟩

/-- Effect of the error settle: error overwrite, `isStreaming` cleared,
session closed. -/
def settleErrEffect (f : Flight) (m : Str) (s : SysState) : SysState :=
  ⟨updateMessage f.chatId f.aiMsgId
      { content := some (errMark ++ m), isStreaming := some false } s.store,
    false, none⟩

/-- Interleaved steps of the turn lifecycle with the guarded send
input.  The freshness preconditions of `submit` model
`crypto.randomUUID`. -/
inductive Step : SysState → SysState → Prop where
  | submit (s : SysState) (ids : TurnIds) (content : Str)
      (hguard : s.thinking = false)
      (htext : (trim content).isEmpty = false)
      (hfresh : ∀ c ∈ s.store.chats, ∀ m ∈ c.messages, m.id ≠ ids.aiMsgId)
      (hids : ids.userMsgId ≠ ids.aiMsgId) :
      Step s (submitEffect ids content s)
  | chunk (s : SysState) (f : Flight) (d : Str)
      (hf : s.inflight = some f) : Step s (chunkEffect f d s)
  | settleOk (s : SysState) (f : Flight)
      (hf : s.inflight = some f) : Step s (settleOkEffect f s)
  | settleErr (s : SysState) (f : Flight) (m : Str)
      (hf : s.inflight = some f) : Step s (settleErrEffect f m s)

/-- Initial state: empty store, not thinking, no session. -/
def initState : SysState := ⟨⟨[], none, none⟩, false, none⟩

/-- States the interleaved lifecycle can reach. -/
def Reachable (s : SysState) : Prop :=
  Relation.ReflTransGen Step initState s

/-- No message of the chat is streaming. -/
def chatSettled (c : Chat) : Prop := ∀ m ∈ c.messages, m.isStreaming = false

/-- The chat ends with the in-flight turn's streaming placeholder, and
no earlier message is streaming or reuses the placeholder's id. -/
def chatInflight (aid : Nat) (c : Chat) : Prop :=
  ∃ pre lst, c.messages = pre ++ [lst] ∧ lst.isStreaming = true ∧
    lst.id = aid ∧ lst.role = Role.assistant ∧
    ∀ m ∈ pre, m.isStreaming = false ∧ m.id ≠ aid

/-- Inductive invariant: with no session open every conversation is
fully settled; with an open session the target conversation ends with
the streaming placeholder and every other conversation is settled. -/
def SysInv (s : SysState) : Prop :=
  match s.inflight with
  | none => ∀ c ∈ s.store.chats, chatSettled c
  | some f =>
    s.thinking = true ∧
      ∀ c ∈ s.store.chats,
        if c.id = f.chatId then chatInflight f.aiMsgId c else chatSettled c

theorem submit_chats_inflight (cid uid aid : Nat) (content : Str) (st : Store)
    (hall : ∀ c ∈ st.chats, chatSettled c)
    (hfresh : ∀ c ∈ st.chats, ∀ m ∈ c.messages, m.id ≠ aid)
    (hids : uid ≠ aid) :
    ∀ c ∈ (addMessage cid ⟨aid, Role.assistant, [], true⟩
        (addMessage cid ⟨uid, Role.user, content, false⟩ st)).chats,
      if c.id = cid then chatInflight aid c else chatSettled c := by
  intro c hc
  simp only [addMessage, List.map_map, List.mem_map] at hc
  rcases hc with ⟨c0, hc0, rfl⟩
  have hset := hall c0 hc0
  have hfr := hfresh c0 hc0
  by_cases h : c0.id = cid
  · simp only [Function.comp, h, if_pos]
    refine ⟨c0.messages ++ [⟨uid, Role.user, content, false⟩],
      ⟨aid, Role.assistant, [], true⟩, ?_, rfl, rfl, rfl, ?_⟩
    · simp
    · intro m hm
      rcases List.mem_append.mp hm with hm | hm
      · exact ⟨hset m hm, hfr m hm⟩
      · rcases List.mem_singleton.mp hm with rfl
        exact ⟨rfl, hids⟩
  · simp only [Function.comp, h, if_neg, if_false]
    simpa [h] using hset

theorem chunk_chats_inflight (cid aid : Nat) (x : Str) (st : Store)
    (hin : ∀ c ∈ st.chats,
      if c.id = cid then chatInflight aid c else chatSettled c) :
    ∀ c ∈ (updateMessage cid aid { content := some x } st).chats,
      if c.id = cid then chatInflight aid c else chatSettled c := by
  intro c hc
  simp only [updateMessage, List.mem_map] at hc
  rcases hc with ⟨c0, hc0, rfl⟩
  have h0 := hin c0 hc0
  by_cases h : c0.id = cid
  · rw [if_pos h] at h0
    simp only [h, if_pos]
    rcases h0 with ⟨pre, lst, hmsgs, hstr, hid, hrole, hpre⟩
    refine ⟨pre.map fun m => if m.id = aid then applyPatch ⟨some x, none⟩ m else m,
      if lst.id = aid then applyPatch ⟨some x, none⟩ lst else lst,
      ?_, ?_, ?_, ?_, ?_⟩
    · simp [hmsgs]
    · by_cases hl : lst.id = aid <;> simp [hl, applyPatch, hstr]
    · by_cases hl : lst.id = aid <;> simp [hl, applyPatch, hid]
    · by_cases hl : lst.id = aid <;> simp [hl, applyPatch, hrole]
    · intro m hm
      rcases List.mem_map.mp hm with ⟨m0, hm0, rfl⟩
      rcases hpre m0 hm0 with ⟨hs0, hi0⟩
      simp [hi0, hs0]
  · simp only [h, if_neg, if_false]
    rw [if_neg h] at h0
    simpa [h] using h0

theorem settle_chats_settled (cid aid : Nat) (p : MsgPatch)
    (hp : p.isStreaming = some false) (st : Store)
    (hin : ∀ c ∈ st.chats,
      if c.id = cid then chatInflight aid c else chatSettled c) :
    ∀ c ∈ (updateMessage cid aid p st).chats, chatSettled c := by
  intro c hc
  simp only [updateMessage, List.mem_map] at hc
  rcases hc with ⟨c0, hc0, rfl⟩
  have h0 := hin c0 hc0
  by_cases h : c0.id = cid
  · rw [if_pos h] at h0
    rcases h0 with ⟨pre, lst, hmsgs, hstr, hid, hrole, hpre⟩
    intro m hm
    simp only [h, if_pos] at hm
    rcases List.mem_map.mp hm with ⟨m0, hm0, rfl⟩
    rw [hmsgs] at hm0
    rcases List.mem_append.mp hm0 with hm0 | hm0
    · rcases hpre m0 hm0 with ⟨hs0, hi0⟩
      simp [hi0, hs0]
    · rcases List.mem_singleton.mp hm0 with rfl
      simp [hid, applyPatch, hp]
  · rw [if_neg h] at h0
    intro m hm
    simp only [h, if_neg, if_false] at hm
    exact h0 m hm

theorem step_preserves (s t : SysState) (hst : Step s t) (hinv : SysInv s) :
    SysInv t := by
  cases hst with
  | submit ids content hguard htext hfresh hids =>
    have hnone : s.inflight = none := by
      rcases hin : s.inflight with _ | f
      · rfl
      · unfold SysInv at hinv
        rw [hin] at hinv
        rw [hinv.1] at hguard
        cases hguard
    unfold SysInv at hinv
    rw [hnone] at hinv
    unfold SysInv submitEffect
    rcases hac : s.store.activeChat with _ | cid
    · simp only [hac]
      refine ⟨by trivial, ?_⟩
      refine submit_chats_inflight ids.newChatId ids.userMsgId ids.aiMsgId
        content (createChat ids.newChatId s.store) ?_ ?_ hids
      · intro c hc
        simp only [createChat, List.mem_cons] at hc
        rcases hc with rfl | hc
        · intro m hm
          cases hm
        · exact hinv c hc
      · intro c hc
        simp only [createChat, List.mem_cons] at hc
        rcases hc with rfl | hc
        · intro m hm
          cases hm
        · exact hfresh c hc
    · simp only [hac]
      exact ⟨by trivial, submit_chats_inflight cid ids.userMsgId ids.aiMsgId
        content s.store hinv hfresh hids⟩
  | chunk f d hf =>
    unfold SysInv at hinv
    rw [hf] at hinv
    unfold SysInv chunkEffect
    exact ⟨hinv.1, chunk_chats_inflight f.chatId f.aiMsgId (f.acc ++ d)
      s.store hinv.2⟩
  | settleOk f hf =>
    unfold SysInv at hinv
    rw [hf] at hinv
    unfold SysInv settleOkEffect
    by_cases hb : (f.acc.isEmpty || (trim f.acc).isEmpty) = true
    · simp only [hb, if_true]
      exact settle_chats_settled f.chatId f.aiMsgId _ rfl s.store hinv.2
    · simp only [hb, if_false]
      exact settle_chats_settled f.chatId f.aiMsgId _ rfl s.store hinv.2
  | settleErr f m hf =>
    unfold SysInv at hinv
    rw [hf] at hinv
    unfold SysInv settleErrEffect
    exact settle_chats_settled f.chatId f.aiMsgId _ rfl s.store hinv.2

theorem reachable_inv (s : SysState) (h : Reachable s) : SysInv s := by
  induction h with
  | refl =>
    unfold SysInv initState
    intro c hc
    cases hc
  | tail _ hstep ih => exact step_preserves _ _ hstep ih

/-- Claim C8: in every reachable state of the turn lifecycle
interleaved with the guarded send input, each conversation holds at
most one message with `isStreaming = true`, and any such message is the
newest (last) message of the conversation, an assistant message, and
the placeholder of the in-flight session. -/
theorem spec_c8_single_streaming (s : SysState) (h : Reachable s) :
    ∀ c ∈ s.store.chats,
      (c.messages.countP fun m => m.isStreaming) ≤ 1 ∧
        ∀ m ∈ c.messages, m.isStreaming = true →
          c.messages.getLast? = some m ∧ m.role = Role.assistant ∧
            ∃ f, s.inflight = some f ∧ c.id = f.chatId ∧ m.id = f.aiMsgId := by
  have hinv := reachable_inv s h
  unfold SysInv at hinv
  intro c hc
  rcases hin : s.inflight with _ | f
  · rw [hin] at hinv
    have hset := hinv c hc
    constructor
    · have h0 : (c.messages.countP fun m => m.isStreaming) = 0 :=
        List.countP_eq_zero.mpr fun m hm => by simp [hset m hm]
      omega
    · intro m hm hstr
      rw [hset m hm] at hstr
      cases hstr
  · rw [hin] at hinv
    have hchat := hinv.2 c hc
    by_cases hcid : c.id = f.chatId
    · rw [if_pos hcid] at hchat
      rcases hchat with ⟨pre, lst, hmsgs, hstr, hid, hrole, hpre⟩
      constructor
      · rw [hmsgs, List.countP_append]
        have h0 : (pre.countP fun m => m.isStreaming) = 0 :=
          List.countP_eq_zero.mpr fun m hm => by simp [(hpre m hm).1]
        simp [h0, List.countP_cons, hstr]
      · intro m hm hstrm
        rw [hmsgs] at hm
        rcases List.mem_append.mp hm with hm | hm
        · rw [(hpre m hm).1] at hstrm
          cases hstrm
        · rcases List.mem_singleton.mp hm with rfl
          refine ⟨?_, hrole, f, rfl, hcid, hid⟩
          rw [hmsgs]
          simp
    · rw [if_neg hcid] at hchat
      constructor
      · have h0 : (c.messages.countP fun m => m.isStreaming) = 0 :=
          List.countP_eq_zero.mpr fun m hm => by simp [hchat m hm]
        omega
      · intro m hm hstr
        rw [hchat m hm] at hstr
        cases hstr

/-- A state reached by one guarded submit from the initial state. -/
def sys1 : SysState := submitEffect ⟨1, 2, 3⟩ ('q' :: []) initState

/-- Claim C8 witness: the state after one submit is reachable and
satisfies the invariant — its single conversation ends with exactly one
streaming assistant placeholder, the session's. -/
theorem spec_c8_witness :
    Reachable sys1 ∧
      ∀ c ∈ sys1.store.chats,
        (c.messages.countP fun m => m.isStreaming) ≤ 1 ∧
          ∀ m ∈ c.messages, m.isStreaming = true →
            c.messages.getLast? = some m ∧ m.role = Role.assistant ∧
              ∃ f, sys1.inflight = some f ∧ c.id = f.chatId ∧
                m.id = f.aiMsgId :=
  have hr : Reachable sys1 :=
    Relation.ReflTransGen.single
      (Step.submit initState ⟨1, 2, 3⟩ ('q' :: []) rfl (by decide)
        (by decide) (by decide))
  ⟨hr, spec_c8_single_streaming sys1 hr⟩

end VeriSearch
